import Mathlib

/-!
Shallow embedding of the `vite-content-preload` plugin core
(`src/index.ts`, the `transformIndexHtml` hook of `autoPreload`).

Strings are modelled as `List Char` (`Str`); JavaScript `undefined` as
`Option`; the rollup bundle (`Record<string, OutputChunk | OutputAsset>`)
as an insertion-ordered association list.  `Object.entries` /
`Object.values` iteration is modelled as left-to-right traversal of that
list (the JS reordering of integer-like keys is not modelled; bundle file
names are never integer-like).  An asset `source` payload
(`string | Uint8Array`, possibly `undefined`) is an `Option Payload`;
JS truthiness of `asset.source` is `undefined` → false, `''` → false,
any `Uint8Array` → true, which `sourceTruthy` reproduces.  The global
regexes driving the scanning loops are translated into explicit
left-to-right scanners with the exact backtracking behaviour of the JS
engine on those patterns.  Logging (`log`/`warn`) is a side channel and
is dropped.
-/

namespace VitePreload

abbrev Str := List Char

/-- Character-list contents of a Lean string literal. -/
def S (s : String) : Str := s.data

def quoteChar : Char := Char.ofNat 34

def apostChar : Char := Char.ofNat 39

def backslashChar : Char := Char.ofNat 92

def newlineChar : Char := Char.ofNat 10

/-- An asset `source`: a JS string or a byte buffer (`Uint8Array`/`Buffer`). -/
inductive Payload where
  | str (text : Str)
  | buf (bytes : List Nat)
deriving DecidableEq

/-- `source.length`: code units of a string, bytes of a buffer. -/
def Payload.len : Payload → Nat
  | .str t => t.length
  | .buf b => b.length

/-- JS truthiness of a present `source` value: `''` is falsy, any buffer object is truthy. -/
def Payload.truthy : Payload → Bool
  | .str t => !t.isEmpty
  | .buf _ => true

/-- An `OutputAsset`: emitted file name plus optional payload (`undefined` ⇒ `none`). -/
structure AssetFile where
  fileName : Str
  source : Option Payload
deriving DecidableEq

/-- An `OutputChunk`: emitted file name, generated code text, and the
rollup import lists.  The plugin reads only `imports`; `dynamicImports`
is part of the rollup record but is never consulted by the code. -/
structure ChunkFile where
  fileName : Str
  code : Str
  imports : List Str
  dynamicImports : List Str
deriving DecidableEq

inductive BundleFile where
  | chunk (c : ChunkFile)
  | asset (a : AssetFile)
deriving DecidableEq

def BundleFile.fileName : BundleFile → Str
  | .chunk c => c.fileName
  | .asset a => a.fileName

/-- `ctx.bundle`: insertion-ordered map from output path to artifact. -/
abbrev Bundle := List (Str × BundleFile)

/-- Plugin options after defaulting: `maxSizeKB`, the `extensions`
regex (modelled as the Boolean test it induces on a file name, faithful
because the plugin only ever calls `extensions.test`), `preloadAll`. -/
structure Config where
  maxSizeKB : ℚ
  extensionsTest : Str → Bool
  preloadAll : Bool

/-- JS truthiness of `asset.source`. -/
def sourceTruthy : Option Payload → Bool
  | some p => p.truthy
  | none => false

/-- `html.includes(pat)`. -/
def strContains (s pat : Str) : Bool :=
  if pat.isPrefixOf s then true
  else
    match s with
    | [] => false
    | _ :: rest => strContains rest pat

/-- `String.prototype.toLowerCase` restricted to the characters appearing
in file names (ASCII agrees with the `/i` regex flag). -/
def jsLower (s : Str) : Str := s.map Char.toLower

/-- `name.replace(/^\.\.?\//, '')`: strip one leading `./` or `../`. -/
def normalizeName (s : Str) : Str :=
  if (S "../").isPrefixOf s then s.drop 3
  else if (S "./").isPrefixOf s then s.drop 2
  else s

def isSlash (c : Char) : Bool := c == '/' || c == backslashChar

/-- `url.replace(/^.*[\\/]/, '')`: drop everything up to and including
the last slash or backslash reachable from the start without crossing a
newline (JS `.` does not match `\n`); if no such slash exists the string
is unchanged. -/
def jsBaseName (s : Str) : Str :=
  let region := s.takeWhile (fun c => c != newlineChar)
  match (region.enum.filter (fun p => isSlash p.2)).getLast? with
  | some (i, _) => s.drop (i + 1)
  | none => s

/-- First bundle entry that is an asset whose `fileName` ends with `n`:
the loop body of `findBundleAsset` after name normalization. -/
def findAssetAux : Bundle → Str → Option AssetFile
  | [], _ => none
  | (_, .asset a) :: rest, n =>
      if n.isSuffixOf a.fileName then some a else findAssetAux rest n
  | (_, .chunk _) :: rest, n => findAssetAux rest n

/-- `findBundleAsset`: normalize the name, then return the first asset
in `Object.entries` order whose `fileName` ends with it. -/
def findBundleAsset (bundle : Bundle) (name : Str) : Option AssetFile :=
  findAssetAux bundle (normalizeName name)

/-- `bundle[fileName]` property lookup. -/
def bundleGet : Bundle → Str → Option BundleFile
  | [], _ => none
  | (k, f) :: rest, key => if k = key then some f else bundleGet rest key

/-- The `initialChunks` filter predicate: a chunk whose file name occurs
in the html, or a `.css` asset whose file name occurs in the html. -/
def isInitialFile (html : Str) (f : BundleFile) : Bool :=
  match f with
  | .chunk c => strContains html c.fileName
  | .asset a => (S ".css").isSuffixOf a.fileName && strContains html a.fileName

/-- `initialChunks`: `Object.values(bundle).filter(...).map(f => f.fileName)`. -/
def initialChunks (html : Str) (bundle : Bundle) : List Str :=
  ((bundle.map Prod.snd).filter (isInitialFile html)).map BundleFile.fileName

def notQuote (c : Char) : Bool := c != quoteChar && c != apostChar

/-- Scanner for the global regex `/\/assets\/[^"']+/g`: one step per
position, either emitting the greedy match starting there and resuming
past it, or advancing one character.  Structural recursion on a fuel
counter (every step consumes at least one character, so any fuel of at
least the text length yields the full scan). -/
def findStaticUrlsFuel : Nat → Str → List Str
  | 0, _ => []
  | _, [] => []
  | fuel + 1, c :: rest =>
    if (S "/assets/").isPrefixOf (c :: rest) then
      let body := ((c :: rest).drop 8).takeWhile notQuote
      if body.isEmpty then findStaticUrlsFuel fuel rest
      else (S "/assets/" ++ body) :: findStaticUrlsFuel fuel ((c :: rest).drop (8 + body.length))
    else findStaticUrlsFuel fuel rest

/-- All matches of the global regex `/\/assets\/[^"']+/g` over chunk
code, in scan order: each match starts at a `/assets/` occurrence and
extends greedily over characters other than the two quotes; after a
match the scan resumes past it, after a failure it advances one
character. -/
def findStaticUrls (s : Str) : List Str := findStaticUrlsFuel s.length s

def notUrlEnd (c : Char) : Bool := c != apostChar && c != quoteChar && c != ')'

/-- One attempted match of `/url\((['"]?)([^'")]+)\1\)/` positioned just
after `url(`: returns the captured group 2 together with the number of
characters consumed after `url(`.  A quoted body must be closed by the
same quote then `)`; an unquoted body must be closed by `)`; the body is
the maximal nonempty run of characters outside `'`, `"`, `)` (shorter
bodies cannot make the backreference or `)` match, so the greedy run is
match-or-fail, exactly as the JS engine behaves on this pattern). -/
def cssMatchAt (s : Str) : Option (Str × Nat) :=
  match s with
  | [] => none
  | c :: rest =>
    if c == quoteChar || c == apostChar then
      let body := rest.takeWhile notUrlEnd
      if body.isEmpty then none
      else
        match rest.drop body.length with
        | d :: e :: _ =>
            if d == c && e == ')' then some (body, body.length + 3) else none
        | _ => none
    else
      let body := (c :: rest).takeWhile notUrlEnd
      if body.isEmpty then none
      else
        match (c :: rest).drop body.length with
        | e :: _ => if e == ')' then some (body, body.length + 1) else none
        | _ => none

/-- Scanner for the global regex `/url\((['"]?)([^'")]+)\1\)/g`: one
step per position, fuel-structured exactly like `findStaticUrlsFuel`. -/
def findCssUrlsFuel : Nat → Str → List Str
  | 0, _ => []
  | _, [] => []
  | fuel + 1, c :: rest =>
    if (S "url(").isPrefixOf (c :: rest) then
      match cssMatchAt ((c :: rest).drop 4) with
      | some (body, consumed) => body :: findCssUrlsFuel fuel ((c :: rest).drop (4 + consumed))
      | none => findCssUrlsFuel fuel rest
    else findCssUrlsFuel fuel rest

/-- All group-2 captures of the global regex `/url\((['"]?)([^'")]+)\1\)/g`
over a text, in scan order. -/
def findCssUrls (s : Str) : List Str := findCssUrlsFuel s.length s

/-- `usedAssets.add`: a JS `Set<string>` keeps insertion order and
ignores re-insertion. -/
def setAdd (s : List Str) (x : Str) : List Str :=
  if x ∈ s then s else s ++ [x]

/-- The shared guard of every collection site: if a bundle asset was
found and its `fileName` passes the extensions test, add that
`fileName` to the used-asset set. -/
def collectFound (cfg : Config) (acc : List Str) (found : Option AssetFile) : List Str :=
  match found with
  | some a => if cfg.extensionsTest a.fileName then setAdd acc a.fileName else acc
  | none => acc

/-- The `staticAssets.forEach` / CSS `url()` loop: each extracted URL is
reduced to its base name and resolved with `findBundleAsset`.  (The JS
code first gathers the static finds into a `Set` of object references;
since the downstream `usedAssets` set deduplicates anyway, processing
duplicates directly is observably identical.) -/
def collectUrlAssets (cfg : Config) (bundle : Bundle) : List Str → List Str → List Str
  | [], acc => acc
  | u :: rest, acc =>
      collectUrlAssets cfg bundle rest
        (collectFound cfg acc (findBundleAsset bundle (jsBaseName u)))

/-- The `chunk.imports?.forEach` loop: each listed name is resolved with
`findBundleAsset` (no base-name step). -/
def collectImports (cfg : Config) (bundle : Bundle) : List Str → List Str → List Str
  | [], acc => acc
  | nm :: rest, acc =>
      collectImports cfg bundle rest
        (collectFound cfg acc (findBundleAsset bundle nm))

/-- Processing of one initial file name: look it up by bundle key; a
chunk contributes its static-regex finds then its `imports` list; a
`.css` asset with a string source contributes its `url()` finds. -/
def processInitialFile (cfg : Config) (bundle : Bundle) (acc : List Str) (fname : Str) :
    List Str :=
  match bundleGet bundle fname with
  | none => acc
  | some (.chunk c) =>
      collectImports cfg bundle c.imports
        (collectUrlAssets cfg bundle (findStaticUrls c.code) acc)
  | some (.asset a) =>
      if (S ".css").isSuffixOf a.fileName then
        match a.source with
        | some (.str t) => collectUrlAssets cfg bundle (findCssUrls t) acc
        | _ => acc
      else acc

def processAll (cfg : Config) (bundle : Bundle) : List Str → List Str → List Str
  | [], acc => acc
  | f :: rest, acc => processAll cfg bundle rest (processInitialFile cfg bundle acc f)

/-- The `preloadAll` debugging branch: every bundle entry whose value is
an asset and whose key passes the extensions test is collected. -/
def collectAllAssets (cfg : Config) : Bundle → List Str → List Str
  | [], acc => acc
  | (k, .asset _) :: rest, acc =>
      collectAllAssets cfg rest (if cfg.extensionsTest k then setAdd acc k else acc)
  | (_, .chunk _) :: rest, acc => collectAllAssets cfg rest acc

/-- The complete `usedAssets` set after the collection phase, in
insertion order. -/
def computeUsedAssets (cfg : Config) (html : Str) (bundle : Bundle) : List Str :=
  if cfg.preloadAll then collectAllAssets cfg bundle []
  else processAll cfg bundle (initialChunks html bundle) []

/-- The comparison `len / 1024 <= m` over exact rationals, written in
the cross-multiplied integer form (both denominators are positive) so
that it evaluates by kernel reduction; `sizeLeKB_iff` below recovers the
division form. -/
def sizeLeKB (len : Nat) (m : ℚ) : Bool :=
  decide ((len : ℤ) * (m.den : ℤ) ≤ m.num * 1024)

/-- The size filter of `preloadLinks`: resolve the used name again with
`findBundleAsset`; when an asset with a truthy `source` is found, keep
the name iff `source.length / 1024 <= maxSizeKB` (exact in JS doubles
for all representable lengths, hence modelled over `ℚ`); otherwise the
JS code keeps the name (`return true`). -/
def passSizeFilter (cfg : Config) (bundle : Bundle) (fn : Str) : Bool :=
  match findBundleAsset bundle fn with
  | some a =>
    match a.source with
    | some p => if p.truthy then sizeLeKB p.len cfg.maxSizeKB else true
    | none => true
  | none => true

def testFontExt (fn : Str) : Bool :=
  let l := jsLower fn
  (S ".woff").isSuffixOf l || (S ".woff2").isSuffixOf l ||
    (S ".ttf").isSuffixOf l || (S ".otf").isSuffixOf l

def testImageExt (fn : Str) : Bool :=
  let l := jsLower fn
  (S ".png").isSuffixOf l || (S ".jpg").isSuffixOf l || (S ".jpeg").isSuffixOf l ||
    (S ".gif").isSuffixOf l || (S ".svg").isSuffixOf l || (S ".webp").isSuffixOf l

def testVideoExt (fn : Str) : Bool :=
  let l := jsLower fn
  (S ".mp4").isSuffixOf l || (S ".webm").isSuffixOf l

/-- The `asType` computation: start from `'fetch'` and let each of the
three suffix tests overwrite in turn (the JS code uses three successive
`if` statements, not `else if`). -/
def classifyType (fn : Str) : Str :=
  let t0 := S "fetch"
  let t1 := if testFontExt fn then S "font" else t0
  let t2 := if testImageExt fn then S "image" else t1
  if testVideoExt fn then S "video" else t2

/-- `asType === 'font'`, the crossorigin decision. -/
def classifyCross (fn : Str) : Bool := classifyType fn = S "font"

/-- One rendered `<link rel="preload">` element. -/
def renderLink (fn : Str) : Str :=
  let href := if (S "..").isPrefixOf fn then fn else S "/" ++ fn
  let cross := if classifyCross fn then S " crossorigin" else []
  S "<link rel=\"preload\" href=\"" ++ href ++ S "\" as=\"" ++ classifyType fn ++
    S "\"" ++ cross ++ S ">"

/-- `Array.prototype.join('\n')`. -/
def joinLines : List Str → Str
  | [] => []
  | [x] => x
  | x :: y :: rest => x ++ newlineChar :: joinLines (y :: rest)

/-- The final `preloadLinks` string. -/
def preloadLinksStr (cfg : Config) (html : Str) (bundle : Bundle) : Str :=
  joinLines
    (((computeUsedAssets cfg html bundle).filter (passSizeFilter cfg bundle)).map renderLink)

/-- `String.prototype.trim`. -/
def jsTrim (s : Str) : Str :=
  ((s.dropWhile Char.isWhitespace).reverse.dropWhile Char.isWhitespace).reverse

/-- `String.prototype.replace` with a string pattern: replace the first
occurrence only; if the pattern does not occur, return the string
unchanged.  (Dollar escapes in the replacement text are not modelled;
no rendered replacement in this plugin is built from one.) -/
def replaceFirst (s pat repl : Str) : Str :=
  if pat.isPrefixOf s then repl ++ s.drop pat.length
  else
    match s with
    | [] => []
    | c :: rest => c :: replaceFirst rest pat repl

/-- The body of the transform once both inputs are available: build the
links, return the html unchanged when the trimmed link text is empty,
otherwise splice `  ${preloadLinks}\n` in front of the first
`</head>`. -/
def transformBody (cfg : Config) (html : Str) (bundle : Bundle) : Str :=
  let links := preloadLinksStr cfg html bundle
  if (jsTrim links).isEmpty then html
  else replaceFirst html (S "</head>") (S "  " ++ links ++ newlineChar :: S "</head>")

/-- The full `transformIndexHtml(html?, ctx?)` hook.  `ctxBundle` is
`ctx?.bundle` collapsed to one option (absent `ctx` and absent
`ctx.bundle` behave identically).  The JS guard `if (!html)` is a
truthiness test, so an empty html string takes the `return undefined`
branch exactly like an absent one. -/
def transformIndexHtml (cfg : Config) (html? : Option Str) (ctxBundle : Option Bundle) :
    Option Str :=
  match ctxBundle with
  | none => html?
  | some bundle =>
    match html? with
    | none => none
    | some html =>
      if html.isEmpty then none else some (transformBody cfg html bundle)

/-- The defaulted `extensions` option:
`/\.(woff2?|ttf|otf|midi?|ogg|mp3|png|jpe?g|gif|svg|webp|mp4|webm)$/i`. -/
def defaultExtensionsTest (fn : Str) : Bool :=
  let l := jsLower fn
  (S ".woff").isSuffixOf l || (S ".woff2").isSuffixOf l ||
    (S ".ttf").isSuffixOf l || (S ".otf").isSuffixOf l ||
    (S ".mid").isSuffixOf l || (S ".midi").isSuffixOf l ||
    (S ".ogg").isSuffixOf l || (S ".mp3").isSuffixOf l ||
    (S ".png").isSuffixOf l || (S ".jpg").isSuffixOf l || (S ".jpeg").isSuffixOf l ||
    (S ".gif").isSuffixOf l || (S ".svg").isSuffixOf l || (S ".webp").isSuffixOf l ||
    (S ".mp4").isSuffixOf l || (S ".webm").isSuffixOf l

/-- The defaulted configuration of `autoPreload({})`. -/
def defaultConfig : Config :=
  { maxSizeKB := 200, extensionsTest := defaultExtensionsTest, preloadAll := false }

/-! ### Concrete instances used as test vectors -/

/-- The configuration of `autoPreload({ maxSizeKB: 1 })`. -/
def cfgKB1 : Config :=
  { maxSizeKB := 1, extensionsTest := defaultExtensionsTest, preloadAll := false }

/-- An entry document referencing the chunk `main.js`. -/
def htmlMain : Str := S "<html><head><script src=\"main.js\"></script></head><body></body></html>"

def asset1024 : AssetFile := ⟨S "f.bin", some (.buf (List.replicate 1024 7))⟩

def asset1025 : AssetFile := ⟨S "g.bin", some (.buf (List.replicate 1025 7))⟩

def bundle1024 : Bundle := [(S "f.bin", .asset asset1024)]

def bundle1025 : Bundle := [(S "g.bin", .asset asset1025)]

/-- A graph whose initial chunk imports an asset record with an absent
(`undefined`) payload. -/
def bundleNoPayload : Bundle :=
  [(S "main.js", .chunk ⟨S "main.js", [], [S "a.png"], []⟩),
   (S "a.png", .asset ⟨S "a.png", none⟩)]

/-- A graph whose initial chunk imports a small `.mp3` asset. -/
def bundleMp3 : Bundle :=
  [(S "main.js", .chunk ⟨S "main.js", [], [S "song.mp3"], []⟩),
   (S "song.mp3", .asset ⟨S "song.mp3", some (.buf [0, 0, 0, 0])⟩)]

/-- A graph whose initial chunk lists a matching asset only in
`dynamicImports`. -/
def bundleDynOnly : Bundle :=
  [(S "main.js", .chunk ⟨S "main.js", [], [], [S "font.woff2"]⟩),
   (S "font.woff2", .asset ⟨S "font.woff2", some (.buf [0, 0, 0])⟩)]

def assetExact : AssetFile := ⟨S "foo.png", some (.buf [2])⟩

/-- A graph holding both a suffix-matching asset (first in iteration
order) and an exact-path asset for the name `foo.png`. -/
def bundleTwoFoo : Bundle :=
  [(S "assets/foo.png", .asset ⟨S "assets/foo.png", some (.buf [1])⟩),
   (S "foo.png", .asset assetExact)]

/-- Document prefix and suffix for the two-marker splice instance: the
full document is `preMain ++ S "</head>" ++ postTail` and contains a
second `</head>` inside `postTail`. -/
def preMain : Str := S "<head><script src=\"main.js\"></script>"

def postTail : Str := S "x</head>"

end VitePreload

/-! ## Supporting lemmas and claim theorems -/

namespace VitePreload

lemma sizeLeKB_iff (len : Nat) (m : ℚ) :
    sizeLeKB len m = true ↔ (len : ℚ) / 1024 ≤ m := by
  unfold sizeLeKB
  rw [decide_eq_true_iff, div_le_iff₀ (by norm_num : (0 : ℚ) < 1024)]
  have hden : (0 : ℚ) < (m.den : ℚ) := by exact_mod_cast m.pos
  have hm : m * (m.den : ℚ) = (m.num : ℚ) := by
    nth_rewrite 1 [← Rat.num_div_den m]
    exact div_mul_cancel₀ _ (ne_of_gt hden)
  constructor
  · intro h
    have h2 : (len : ℚ) * (m.den : ℚ) ≤ (m.num : ℚ) * 1024 := by exact_mod_cast h
    rw [← hm, mul_right_comm] at h2
    exact le_of_mul_le_mul_right h2 hden
  · intro h
    have h2 := mul_le_mul_of_nonneg_right h hden.le
    rw [mul_right_comm, hm] at h2
    exact_mod_cast h2

/-- C4: a resolved asset with a present (truthy) payload passes the size
filter iff its payload length divided by 1024 is at most `maxSizeKB`. -/
theorem claim4_size_boundary (cfg : Config) (bundle : Bundle) (fn : Str) (a : AssetFile)
    (p : Payload) (hfind : findBundleAsset bundle fn = some a) (hsrc : a.source = some p)
    (htr : p.truthy = true) :
    passSizeFilter cfg bundle fn = true ↔ (p.len : ℚ) / 1024 ≤ cfg.maxSizeKB := by
  simp only [passSizeFilter, hfind, hsrc, htr, if_true]
  exact sizeLeKB_iff p.len cfg.maxSizeKB

/-- C4 witness: with `maxSizeKB = 1`, an asset of exactly 1024 bytes is
kept and one of 1025 bytes is dropped. -/
theorem claim4_size_boundary_witness :
    passSizeFilter cfgKB1 bundle1024 (S "f.bin") = true ∧
    passSizeFilter cfgKB1 bundle1025 (S "g.bin") = false := by
  constructor
  · exact (claim4_size_boundary cfgKB1 bundle1024 (S "f.bin") asset1024
      (Payload.buf (List.replicate 1024 7)) rfl rfl rfl).mpr
      (by norm_num [Payload.len, cfgKB1])
  · cases h : passSizeFilter cfgKB1 bundle1025 (S "g.bin") with
    | false => rfl
    | true =>
      exact absurd ((claim4_size_boundary cfgKB1 bundle1025 (S "g.bin") asset1025
        (Payload.buf (List.replicate 1025 7)) rfl rfl rfl).mp h)
        (by norm_num [Payload.len, cfgKB1])

/-- C1 (amended): when the used name resolves to no asset, or to an
asset whose payload is absent (falsy), the size filter keeps the name —
a preload directive is still rendered, with no size verification. -/
theorem claim1_filter_keeps_unverified (cfg : Config) (bundle : Bundle) (fn : Str)
    (h : ∀ a, findBundleAsset bundle fn = some a → sourceTruthy a.source = false) :
    passSizeFilter cfg bundle fn = true := by
  cases hf : findBundleAsset bundle fn with
  | none => simp [passSizeFilter, hf]
  | some a =>
    have ha := h a hf
    cases hs : a.source with
    | none => simp [passSizeFilter, hf, hs]
    | some p =>
      rw [hs] at ha
      simp only [sourceTruthy] at ha
      simp [passSizeFilter, hf, hs, ha]

/-- C1 witness: the filter keeps `a.png` although its resolved asset has
an absent payload. -/
theorem claim1_filter_keeps_unverified_witness :
    passSizeFilter defaultConfig bundleNoPayload (S "a.png") = true :=
  claim1_filter_keeps_unverified defaultConfig bundleNoPayload (S "a.png")
    (fun a ha => by
      have hv : findBundleAsset bundleNoPayload (S "a.png") =
          some ⟨S "a.png", none⟩ := by decide
      rw [hv] at ha
      rw [← Option.some.inj ha]
      rfl)

/-- C1 counterexample: a used asset whose payload is absent is *not*
dropped — it survives the filter and its directive is rendered into the
output, contrary to the claim. -/
theorem claim1_counterexample :
    (findBundleAsset bundleNoPayload (S "a.png")).map AssetFile.source = some none ∧
    computeUsedAssets defaultConfig htmlMain bundleNoPayload = [S "a.png"] ∧
    (computeUsedAssets defaultConfig htmlMain bundleNoPayload).filter
      (passSizeFilter defaultConfig bundleNoPayload) = [S "a.png"] ∧
    transformIndexHtml defaultConfig (some htmlMain) (some bundleNoPayload) =
      some (S "<html><head><script src=\"main.js\"></script>  <link rel=\"preload\" href=\"/a.png\" as=\"image\">\n</head><body></body></html>") := by
  refine ⟨by decide, by decide, by decide, by decide⟩

/-- C2 (amended): the input-presence table holds once "present" excludes
the empty document text: absent text gives an absent result, present
text without a graph passes through unchanged, and non-empty text with a
graph always yields a present result. -/
theorem claim2_presence_table (cfg : Config) (html : Str) (bundle : Bundle) :
    transformIndexHtml cfg none (some bundle) = none ∧
    transformIndexHtml cfg none none = none ∧
    transformIndexHtml cfg (some html) none = some html ∧
    (html ≠ [] → (transformIndexHtml cfg (some html) (some bundle)).isSome = true) := by
  refine ⟨rfl, rfl, rfl, fun h => ?_⟩
  cases html with
  | nil => exact absurd rfl h
  | cons c t => rfl

/-- C2 witness: the table at a concrete non-empty document and graph. -/
theorem claim2_presence_table_witness :
    (transformIndexHtml defaultConfig (some (S "x")) (some [])).isSome = true :=
  (claim2_presence_table defaultConfig (S "x") []).2.2.2 (by decide)

/-- C2 counterexample: an empty (hence present) document text with a
present graph yields an absent result, not a string — the JS guard
`if (!html)` treats `''` as absent. -/
theorem claim2_counterexample :
    transformIndexHtml defaultConfig (some []) (some bundle1024) = none := rfl

/-- C3: whenever the transform produces an output document and the
post-filter used-asset set is empty, the output equals the input
byte-for-byte. -/
theorem claim3_no_false_injection (cfg : Config) (html out : Str) (bundle : Bundle)
    (hres : transformIndexHtml cfg (some html) (some bundle) = some out)
    (hempty : (computeUsedAssets cfg html bundle).filter (passSizeFilter cfg bundle) = []) :
    out = html := by
  have hb : transformBody cfg html bundle = html := by
    unfold transformBody preloadLinksStr
    rw [hempty]
    rfl
  rw [show transformIndexHtml cfg (some html) (some bundle) =
      if html.isEmpty then none else some (transformBody cfg html bundle) from rfl] at hres
  by_cases he : html.isEmpty = true
  · rw [if_pos he] at hres
    cases hres
  · rw [if_neg he] at hres
    rw [← Option.some.inj hres, hb]

/-- C3 witness: an empty graph yields an unchanged document. -/
theorem claim3_no_false_injection_witness :
    (S "<head></head>" : Str) = S "<head></head>" :=
  claim3_no_false_injection defaultConfig (S "<head></head>") (S "<head></head>") []
    rfl rfl

/-! ### Suffix disjointness for the classification step -/

lemma suffix_pair {a b s : Str} (ha : a.isSuffixOf s = true) (hb : b.isSuffixOf s = true) :
    a.isSuffixOf b = true ∨ b.isSuffixOf a = true := by
  simp only [List.isSuffixOf_iff_suffix] at ha hb ⊢
  exact List.suffix_or_suffix_of_suffix ha hb

lemma suffix_excl {a b s : Str} (h : a.isSuffixOf s = true) (hab : a.isSuffixOf b = false)
    (hba : b.isSuffixOf a = false) : b.isSuffixOf s = false := by
  cases hb : b.isSuffixOf s with
  | false => rfl
  | true =>
    rcases suffix_pair h hb with hx | hx
    · rw [hab] at hx
      exact Bool.noConfusion hx
    · rw [hba] at hx
      exact Bool.noConfusion hx

lemma font_not_image {fn : Str} (h : testFontExt fn = true) : testImageExt fn = false := by
  simp only [testFontExt, Bool.or_eq_true] at h
  simp only [testImageExt, Bool.or_eq_false_iff]
  rcases h with ((h | h) | h) | h <;>
    refine ⟨⟨⟨⟨⟨?_, ?_⟩, ?_⟩, ?_⟩, ?_⟩, ?_⟩ <;>
      exact suffix_excl h (by decide) (by decide)

lemma font_not_video {fn : Str} (h : testFontExt fn = true) : testVideoExt fn = false := by
  simp only [testFontExt, Bool.or_eq_true] at h
  simp only [testVideoExt, Bool.or_eq_false_iff]
  rcases h with ((h | h) | h) | h <;>
    refine ⟨?_, ?_⟩ <;>
      exact suffix_excl h (by decide) (by decide)

lemma image_not_video {fn : Str} (h : testImageExt fn = true) : testVideoExt fn = false := by
  simp only [testImageExt, Bool.or_eq_true] at h
  simp only [testVideoExt, Bool.or_eq_false_iff]
  rcases h with ((((h | h) | h) | h) | h) | h <;>
    refine ⟨?_, ?_⟩ <;>
      exact suffix_excl h (by decide) (by decide)

/-- C5: the resource type and crossorigin flag are a pure function of
the path suffix — font suffixes give type `font` with crossorigin, image
suffixes give `image` without, video suffixes give `video` without, any
other suffix gives `fetch` without, and the crossorigin attribute is
emitted exactly for type `font`. -/
theorem claim5_classification (fn : Str) :
    (classifyCross fn = true ↔ classifyType fn = S "font") ∧
    (testFontExt fn = true → classifyType fn = S "font" ∧ classifyCross fn = true) ∧
    (testImageExt fn = true → classifyType fn = S "image" ∧ classifyCross fn = false) ∧
    (testVideoExt fn = true → classifyType fn = S "video" ∧ classifyCross fn = false) ∧
    (testFontExt fn = false → testImageExt fn = false → testVideoExt fn = false →
      classifyType fn = S "fetch" ∧ classifyCross fn = false) := by
  refine ⟨by simp [classifyCross], fun h => ?_, fun h => ?_, fun h => ?_,
    fun h1 h2 h3 => ?_⟩
  · have ht : classifyType fn = S "font" := by
      simp [classifyType, h, font_not_image h, font_not_video h]
    exact ⟨ht, by simp [classifyCross, ht]⟩
  · have ht : classifyType fn = S "image" := by
      simp [classifyType, h, image_not_video h]
    refine ⟨ht, ?_⟩
    rw [show classifyCross fn = decide (classifyType fn = S "font") from rfl, ht]
    decide
  · have ht : classifyType fn = S "video" := by simp [classifyType, h]
    refine ⟨ht, ?_⟩
    rw [show classifyCross fn = decide (classifyType fn = S "font") from rfl, ht]
    decide
  · have ht : classifyType fn = S "fetch" := by simp [classifyType, h1, h2, h3]
    refine ⟨ht, ?_⟩
    rw [show classifyCross fn = decide (classifyType fn = S "font") from rfl, ht]
    decide

/-- C5 witness: the classification table at one name of each kind. -/
theorem claim5_classification_witness :
    classifyType (S "a.woff2") = S "font" ∧ classifyCross (S "a.woff2") = true ∧
    classifyType (S "b.png") = S "image" ∧ classifyCross (S "b.png") = false ∧
    classifyType (S "c.mp4") = S "video" ∧ classifyCross (S "c.mp4") = false ∧
    classifyType (S "d.glb") = S "fetch" ∧ classifyCross (S "d.glb") = false := by
  have h1 := (claim5_classification (S "a.woff2")).2.1 (by decide)
  have h2 := (claim5_classification (S "b.png")).2.2.1 (by decide)
  have h3 := (claim5_classification (S "c.mp4")).2.2.2.1 (by decide)
  have h4 := (claim5_classification (S "d.glb")).2.2.2.2 (by decide) (by decide) (by decide)
  exact ⟨h1.1, h1.2, h2.1, h2.2, h3.1, h3.2, h4.1, h4.2⟩

/-! ### Properties of the substring search and the first-occurrence splice -/

lemma isPrefixOf_true_iff {a b : Str} : a.isPrefixOf b = true ↔ a <+: b := by
  simp

lemma strContains_head_false {s pat : Str} (h : strContains s pat = false) :
    pat.isPrefixOf s = false := by
  cases hp : pat.isPrefixOf s with
  | false => rfl
  | true =>
    unfold strContains at h
    rw [hp] at h
    simp at h

lemma strContains_tail_false {c : Char} {s pat : Str}
    (h : strContains (c :: s) pat = false) : strContains s pat = false := by
  unfold strContains at h
  cases hp : pat.isPrefixOf (c :: s) with
  | true =>
    rw [hp] at h
    simp at h
  | false =>
    rw [hp] at h
    simpa using h

lemma replaceFirst_not_contains {pat repl : Str} : ∀ {s : Str},
    strContains s pat = false → replaceFirst s pat repl = s := by
  intro s
  induction s with
  | nil =>
    intro h
    unfold replaceFirst
    rw [strContains_head_false h]
    simp
  | cons c rest ih =>
    intro h
    unfold replaceFirst
    rw [strContains_head_false h]
    simp [ih (strContains_tail_false h)]

lemma isPrefixOf_shorten {a x y : Str} (h : a.isPrefixOf (x ++ y) = true)
    (hl : a.length ≤ x.length) : a.isPrefixOf x = true := by
  rw [isPrefixOf_true_iff] at h ⊢
  have h1 := List.prefix_iff_eq_take.mp h
  rw [List.take_append_of_le_length hl] at h1
  rw [h1]
  exact List.take_prefix _ _

/-- When the pattern `p ++ [c]` has no occurrence starting inside
`pre` (equivalently, none in `pre ++ p`, which spans every starting
position left of the explicit occurrence), the first-occurrence
replacement rewrites exactly that occurrence and leaves the tail
alone. -/
lemma replaceFirst_splice (p : Str) (c : Char) (r post : Str) : ∀ pre : Str,
    strContains (pre ++ p) (p ++ [c]) = false →
    replaceFirst (pre ++ ((p ++ [c]) ++ post)) (p ++ [c]) r = pre ++ (r ++ post) := by
  intro pre
  induction pre with
  | nil =>
    intro _
    simp only [List.nil_append]
    unfold replaceFirst
    have hp : (p ++ [c]).isPrefixOf ((p ++ [c]) ++ post) = true := by
      rw [isPrefixOf_true_iff]
      exact List.prefix_append _ _
    rw [hp]
    simp [List.drop_left]
  | cons d pre ih =>
    intro h
    have hlen : (p ++ [c]).length ≤ ((d :: pre) ++ p).length := by
      simp [List.length_append]
      try omega
    have hd : (p ++ [c]).isPrefixOf ((d :: pre) ++ ((p ++ [c]) ++ post)) = false := by
      cases hq : (p ++ [c]).isPrefixOf ((d :: pre) ++ ((p ++ [c]) ++ post)) with
      | false => rfl
      | true =>
        have hre : (d :: pre) ++ ((p ++ [c]) ++ post) =
            ((d :: pre) ++ p) ++ ([c] ++ post) := by
          simp [List.append_assoc]
        rw [hre] at hq
        have hsh := isPrefixOf_shorten hq hlen
        rw [strContains_head_false h] at hsh
        exact Bool.noConfusion hsh
    have h2 : strContains (pre ++ p) (p ++ [c]) = false :=
      strContains_tail_false (by simpa using h)
    unfold replaceFirst
    rw [hd]
    show d :: replaceFirst (pre ++ ((p ++ [c]) ++ post)) (p ++ [c]) r =
      (d :: pre) ++ (r ++ post)
    rw [ih h2]
    rfl

lemma jsTrim_isEmpty_false {s : Str} {c : Char} (hc : c ∈ s)
    (hw : c.isWhitespace = false) : (jsTrim s).isEmpty = false := by
  cases he : (jsTrim s).isEmpty with
  | false => rfl
  | true =>
    exfalso
    have h0 : jsTrim s = [] := List.isEmpty_iff.mp he
    unfold jsTrim at h0
    have h1 : (s.dropWhile Char.isWhitespace).reverse.dropWhile Char.isWhitespace = [] :=
      List.reverse_eq_nil_iff.mp h0
    have hcd : c ∈ s.dropWhile Char.isWhitespace := by
      have hs : c ∈ s.takeWhile Char.isWhitespace ++ s.dropWhile Char.isWhitespace := by
        rw [List.takeWhile_append_dropWhile Char.isWhitespace s]
        exact hc
      rcases List.mem_append.mp hs with h | h
      · exact absurd (List.mem_takeWhile_imp h) (by simp [hw])
      · exact h
    have hww := List.dropWhile_eq_nil_iff.mp h1 c (List.mem_reverse.mpr hcd)
    rw [hw] at hww
    exact Bool.noConfusion hww

/-- C9 (amended): for every non-empty document with no `</head>` marker,
the transform returns the document unchanged (and, being a total
function, never throws). -/
theorem claim9_no_marker_unchanged (cfg : Config) (html : Str) (bundle : Bundle)
    (hne : html ≠ []) (hnc : strContains html (S "</head>") = false) :
    transformIndexHtml cfg (some html) (some bundle) = some html := by
  have he : html.isEmpty = false := by
    cases html with
    | nil => exact absurd rfl hne
    | cons _ _ => rfl
  rw [show transformIndexHtml cfg (some html) (some bundle) =
      if html.isEmpty then none else some (transformBody cfg html bundle) from rfl]
  rw [he]
  simp only [Bool.false_eq_true, if_false]
  unfold transformBody
  by_cases ht : (jsTrim (preloadLinksStr cfg html bundle)).isEmpty = true
  · rw [if_pos ht]
  · rw [if_neg ht]
    rw [replaceFirst_not_contains hnc]

/-- C9 witness: a marker-less document passes through unchanged even
though a directive survives filtering. -/
theorem claim9_no_marker_unchanged_witness :
    transformIndexHtml defaultConfig
      (some (S "<html><script src=\"main.js\"></script></html>")) (some bundleMp3) =
    some (S "<html><script src=\"main.js\"></script></html>") :=
  claim9_no_marker_unchanged defaultConfig
    (S "<html><script src=\"main.js\"></script></html>") bundleMp3
    (by decide) (by decide)

/-- C9 counterexample: the empty document lacks `</head>`, yet the
transform returns an absent result rather than the (empty) original
text — the `if (!html)` truthiness guard fires on `''`. -/
theorem claim9_counterexample :
    strContains [] (S "</head>") = false ∧
    transformIndexHtml defaultConfig (some []) (some bundleTwoFoo) = none ∧
    (none : Option Str) ≠ some ([] : Str) := by
  refine ⟨rfl, rfl, by decide⟩

lemma renderLink_head (fn : Str) : ∃ t, renderLink fn = '<' :: t := ⟨_, rfl⟩

lemma joinLines_cons (x : Str) (xs : List Str) : ∃ t, joinLines (x :: xs) = x ++ t := by
  cases xs with
  | nil => exact ⟨[], (List.append_nil x).symm⟩
  | cons y r => exact ⟨newlineChar :: joinLines (y :: r), rfl⟩

/-- A surviving directive makes the joined link text start with `<`, so
its trimmed form is non-empty. -/
lemma preloadLinks_trim_ne (cfg : Config) (html : Str) (bundle : Bundle)
    (hne : (computeUsedAssets cfg html bundle).filter (passSizeFilter cfg bundle) ≠ []) :
    (jsTrim (preloadLinksStr cfg html bundle)).isEmpty = false := by
  obtain ⟨f, rest, hfr⟩ := List.exists_cons_of_ne_nil hne
  obtain ⟨t1, h1⟩ := renderLink_head f
  obtain ⟨t2, h2⟩ := joinLines_cons (renderLink f) (rest.map renderLink)
  have hstr : preloadLinksStr cfg html bundle = '<' :: (t1 ++ t2) := by
    unfold preloadLinksStr
    rw [hfr, List.map_cons, h2, h1]
    rfl
  rw [hstr]
  exact jsTrim_isEmpty_false (List.mem_cons_self _ _) (by decide)

/-- C10: when at least one directive survives, the preload block is
spliced in place of the first `</head>` occurrence only (here exposed by
the decomposition `pre ++ "</head>" ++ post` with no occurrence starting
inside `pre`); everything after that first occurrence, including any
later `</head>`, is unchanged. -/
theorem claim10_first_marker_splice (cfg : Config) (bundle : Bundle) (pre post : Str)
    (hpre : strContains (pre ++ S "</head") (S "</head>") = false)
    (hne : (computeUsedAssets cfg (pre ++ (S "</head>" ++ post)) bundle).filter
        (passSizeFilter cfg bundle) ≠ []) :
    transformIndexHtml cfg (some (pre ++ (S "</head>" ++ post))) (some bundle) =
      some (pre ++ ((S "  " ++
        preloadLinksStr cfg (pre ++ (S "</head>" ++ post)) bundle ++
        newlineChar :: S "</head>") ++ post)) := by
  have hm : S "</head>" = S "</head" ++ ['>'] := rfl
  have hhtml_ne : (pre ++ (S "</head>" ++ post)).isEmpty = false := by
    cases pre <;> rfl
  rw [show transformIndexHtml cfg (some (pre ++ (S "</head>" ++ post))) (some bundle) =
      if (pre ++ (S "</head>" ++ post)).isEmpty then none
      else some (transformBody cfg (pre ++ (S "</head>" ++ post)) bundle) from rfl]
  rw [hhtml_ne]
  simp only [Bool.false_eq_true, if_false]
  unfold transformBody
  have ht := preloadLinks_trim_ne cfg (pre ++ (S "</head>" ++ post)) bundle hne
  rw [if_neg (by rw [ht]; exact Bool.false_ne_true)]
  rw [hm] at hpre
  rw [hm]
  exact congrArg some (replaceFirst_splice (S "</head") '>' _ post pre hpre)

/-- C10 witness: a document with two `</head>` markers gains the block
before the first one only. -/
theorem claim10_first_marker_splice_witness :
    transformIndexHtml defaultConfig (some (preMain ++ (S "</head>" ++ postTail)))
      (some bundleMp3) =
    some (preMain ++ ((S "  " ++
        preloadLinksStr defaultConfig (preMain ++ (S "</head>" ++ postTail)) bundleMp3 ++
        newlineChar :: S "</head>") ++ postTail)) :=
  claim10_first_marker_splice defaultConfig bundleMp3 preMain postTail (by decide) (by decide)

/-! ### Collection-phase invariants -/

lemma mem_setAdd {s : List Str} {x y : Str} (h : x ∈ setAdd s y) : x ∈ s ∨ x = y := by
  unfold setAdd at h
  by_cases hy : y ∈ s
  · rw [if_pos hy] at h
    exact Or.inl h
  · rw [if_neg hy] at h
    rcases List.mem_append.mp h with h | h
    · exact Or.inl h
    · exact Or.inr (List.mem_singleton.mp h)

lemma mem_setAdd_of_mem {s : List Str} {x : Str} (y : Str) (h : x ∈ s) : x ∈ setAdd s y := by
  unfold setAdd
  by_cases hy : y ∈ s
  · rw [if_pos hy]
    exact h
  · rw [if_neg hy]
    exact List.mem_append_left _ h

lemma self_mem_setAdd (s : List Str) (y : Str) : y ∈ setAdd s y := by
  unfold setAdd
  by_cases hy : y ∈ s
  · rw [if_pos hy]
    exact hy
  · rw [if_neg hy]
    exact List.mem_append_right _ (List.mem_singleton_self y)

lemma mem_collectFound {cfg : Config} {acc : List Str} {f : Option AssetFile} {x : Str}
    (h : x ∈ collectFound cfg acc f) :
    x ∈ acc ∨ ∃ a, f = some a ∧ cfg.extensionsTest a.fileName = true ∧ x = a.fileName := by
  cases f with
  | none => exact Or.inl h
  | some a =>
    by_cases he : cfg.extensionsTest a.fileName = true
    · have h2 : x ∈ setAdd acc a.fileName := by simpa [collectFound, he] using h
      rcases mem_setAdd h2 with h2 | h2
      · exact Or.inl h2
      · exact Or.inr ⟨a, rfl, he, h2⟩
    · exact Or.inl (by simpa [collectFound, he] using h)

lemma mem_collectFound_of_mem {cfg : Config} {acc : List Str} {x : Str} (f : Option AssetFile)
    (h : x ∈ acc) : x ∈ collectFound cfg acc f := by
  cases f with
  | none => exact h
  | some a =>
    by_cases he : cfg.extensionsTest a.fileName = true
    · have heq : collectFound cfg acc (some a) = setAdd acc a.fileName := by
        simp [collectFound, he]
      rw [heq]
      exact mem_setAdd_of_mem _ h
    · have heq : collectFound cfg acc (some a) = acc := by simp [collectFound, he]
      rw [heq]
      exact h

lemma ext_collectUrlAssets (cfg : Config) (bundle : Bundle) :
    ∀ (l acc : List Str), (∀ y ∈ acc, cfg.extensionsTest y = true) →
      ∀ x ∈ collectUrlAssets cfg bundle l acc, cfg.extensionsTest x = true := by
  intro l
  induction l with
  | nil =>
    intro acc hacc x hx
    exact hacc x hx
  | cons u rest ih =>
    intro acc hacc x hx
    refine ih _ (fun y hy => ?_) x hx
    rcases mem_collectFound hy with hy | ⟨a, _, he, rfl⟩
    · exact hacc y hy
    · exact he

lemma ext_collectImports (cfg : Config) (bundle : Bundle) :
    ∀ (l acc : List Str), (∀ y ∈ acc, cfg.extensionsTest y = true) →
      ∀ x ∈ collectImports cfg bundle l acc, cfg.extensionsTest x = true := by
  intro l
  induction l with
  | nil =>
    intro acc hacc x hx
    exact hacc x hx
  | cons nm rest ih =>
    intro acc hacc x hx
    refine ih _ (fun y hy => ?_) x hx
    rcases mem_collectFound hy with hy | ⟨a, _, he, rfl⟩
    · exact hacc y hy
    · exact he

lemma ext_processInitialFile (cfg : Config) (bundle : Bundle) (acc : List Str) (fname : Str)
    (hacc : ∀ y ∈ acc, cfg.extensionsTest y = true) :
    ∀ x ∈ processInitialFile cfg bundle acc fname, cfg.extensionsTest x = true := by
  intro x hx
  unfold processInitialFile at hx
  cases hg : bundleGet bundle fname with
  | none =>
    rw [hg] at hx
    exact hacc x hx
  | some f =>
    rw [hg] at hx
    cases f with
    | chunk c =>
      exact ext_collectImports cfg bundle c.imports _
        (fun y hy => ext_collectUrlAssets cfg bundle (findStaticUrls c.code) acc hacc y hy) x hx
    | asset a =>
      have hx2 : x ∈ (if (S ".css").isSuffixOf a.fileName = true then
          match a.source with
          | some (Payload.str t) => collectUrlAssets cfg bundle (findCssUrls t) acc
          | _ => acc
        else acc) := hx
      by_cases hcss : (S ".css").isSuffixOf a.fileName = true
      · rw [if_pos hcss] at hx2
        cases hsrc : a.source with
        | none =>
          rw [hsrc] at hx2
          exact hacc x hx2
        | some p =>
          cases p with
          | str t =>
            rw [hsrc] at hx2
            exact ext_collectUrlAssets cfg bundle (findCssUrls t) acc hacc x hx2
          | buf b =>
            rw [hsrc] at hx2
            exact hacc x hx2
      · rw [if_neg hcss] at hx2
        exact hacc x hx2

lemma ext_processAll (cfg : Config) (bundle : Bundle) :
    ∀ (l acc : List Str), (∀ y ∈ acc, cfg.extensionsTest y = true) →
      ∀ x ∈ processAll cfg bundle l acc, cfg.extensionsTest x = true := by
  intro l
  induction l with
  | nil =>
    intro acc hacc x hx
    exact hacc x hx
  | cons f rest ih =>
    intro acc hacc x hx
    exact ih _ (ext_processInitialFile cfg bundle acc f hacc) x hx

lemma ext_collectAllAssets (cfg : Config) :
    ∀ (b : Bundle) (acc : List Str), (∀ y ∈ acc, cfg.extensionsTest y = true) →
      ∀ x ∈ collectAllAssets cfg b acc, cfg.extensionsTest x = true := by
  intro b
  induction b with
  | nil =>
    intro acc hacc x hx
    exact hacc x hx
  | cons e rest ih =>
    intro acc hacc x hx
    obtain ⟨k, f⟩ := e
    cases f with
    | chunk c => exact ih _ hacc x hx
    | asset a =>
      refine ih _ (fun y hy => ?_) x hx
      by_cases he : cfg.extensionsTest k = true
      · rw [if_pos he] at hy
        rcases mem_setAdd hy with hy | rfl
        · exact hacc y hy
        · exact he
      · rw [if_neg he] at hy
        exact hacc y hy

lemma ext_computeUsedAssets (cfg : Config) (html : Str) (bundle : Bundle) :
    ∀ x ∈ computeUsedAssets cfg html bundle, cfg.extensionsTest x = true := by
  intro x hx
  unfold computeUsedAssets at hx
  by_cases hp : cfg.preloadAll = true
  · rw [if_pos hp] at hx
    exact ext_collectAllAssets cfg bundle []
      (fun y hy => absurd hy (List.not_mem_nil y)) x hx
  · rw [if_neg hp] at hx
    exact ext_processAll cfg bundle _ []
      (fun y hy => absurd hy (List.not_mem_nil y)) x hx

/-- C6 (amended): under the default configuration a preload directive is
emitted only for a path matching the default extensions test — which
also covers `mid`, `midi`, `ogg` and `mp3` besides the twelve suffixes
the claim lists. -/
theorem claim6_emitted_only_matching (html : Str) (bundle : Bundle) (fn : Str)
    (h : fn ∈ (computeUsedAssets defaultConfig html bundle).filter
        (passSizeFilter defaultConfig bundle)) :
    defaultExtensionsTest fn = true :=
  ext_computeUsedAssets defaultConfig html bundle fn (List.mem_of_mem_filter h)

/-- C6 witness: the emitted `song.mp3` directive indeed matches the
default extensions test. -/
theorem claim6_emitted_only_matching_witness :
    defaultExtensionsTest (S "song.mp3") = true :=
  claim6_emitted_only_matching htmlMain bundleMp3 (S "song.mp3") (by decide)

/-- C6 counterexample: `.mp3` is *not* excluded by the default
configuration — the default pattern matches it and a preload directive
(of type `fetch`) is rendered for a discovered `song.mp3` asset. -/
theorem claim6_counterexample :
    defaultExtensionsTest (S "song.mp3") = true ∧
    transformIndexHtml defaultConfig (some htmlMain) (some bundleMp3) =
      some (S "<html><head><script src=\"main.js\"></script>  <link rel=\"preload\" href=\"/song.mp3\" as=\"fetch\">\n</head><body></body></html>") := by
  refine ⟨by decide, by decide⟩

/-! ### Membership introduction for the imports channel -/

lemma mem_collectUrlAssets_of_mem (cfg : Config) (bundle : Bundle) :
    ∀ (l acc : List Str) (x : Str), x ∈ acc → x ∈ collectUrlAssets cfg bundle l acc := by
  intro l
  induction l with
  | nil =>
    intro acc x h
    exact h
  | cons u rest ih =>
    intro acc x h
    exact ih _ x (mem_collectFound_of_mem _ h)

lemma mem_collectImports_of_mem (cfg : Config) (bundle : Bundle) :
    ∀ (l acc : List Str) (x : Str), x ∈ acc → x ∈ collectImports cfg bundle l acc := by
  intro l
  induction l with
  | nil =>
    intro acc x h
    exact h
  | cons nm rest ih =>
    intro acc x h
    exact ih _ x (mem_collectFound_of_mem _ h)

lemma mem_collectImports_intro (cfg : Config) (bundle : Bundle) {nm : Str} {a : AssetFile}
    (hfind : findBundleAsset bundle nm = some a)
    (hext : cfg.extensionsTest a.fileName = true) :
    ∀ (l acc : List Str), nm ∈ l → a.fileName ∈ collectImports cfg bundle l acc := by
  intro l
  induction l with
  | nil =>
    intro acc h
    exact absurd h (List.not_mem_nil nm)
  | cons u rest ih =>
    intro acc h
    rcases List.mem_cons.mp h with rfl | h
    · show a.fileName ∈
        collectImports cfg bundle rest (collectFound cfg acc (findBundleAsset bundle nm))
      apply mem_collectImports_of_mem
      rw [hfind]
      have heq : collectFound cfg acc (some a) = setAdd acc a.fileName := by
        simp [collectFound, hext]
      rw [heq]
      exact self_mem_setAdd _ _
    · exact ih _ h

lemma mem_processInitialFile_of_mem (cfg : Config) (bundle : Bundle) (acc : List Str)
    (fname x : Str) (h : x ∈ acc) : x ∈ processInitialFile cfg bundle acc fname := by
  unfold processInitialFile
  cases bundleGet bundle fname with
  | none => exact h
  | some f =>
    cases f with
    | chunk c =>
      exact mem_collectImports_of_mem cfg bundle c.imports _ x
        (mem_collectUrlAssets_of_mem cfg bundle _ acc x h)
    | asset a =>
      show x ∈ (if (S ".css").isSuffixOf a.fileName = true then
          match a.source with
          | some (Payload.str t) => collectUrlAssets cfg bundle (findCssUrls t) acc
          | _ => acc
        else acc)
      by_cases hcss : (S ".css").isSuffixOf a.fileName = true
      · rw [if_pos hcss]
        cases a.source with
        | none => exact h
        | some p =>
          cases p with
          | str t => exact mem_collectUrlAssets_of_mem cfg bundle _ acc x h
          | buf b => exact h
      · rw [if_neg hcss]
        exact h

lemma mem_processAll_of_mem (cfg : Config) (bundle : Bundle) :
    ∀ (l acc : List Str) (x : Str), x ∈ acc → x ∈ processAll cfg bundle l acc := by
  intro l
  induction l with
  | nil =>
    intro acc x h
    exact h
  | cons f rest ih =>
    intro acc x h
    exact ih _ x (mem_processInitialFile_of_mem cfg bundle acc f x h)

/-- C7 (amended): every path in an initial chunk's `imports` list that
resolves to a bundle asset passing the extensions test is collected; the
`dynamicImports` list is never consulted. -/
theorem claim7_imports_collected (cfg : Config) (html : Str) (bundle : Bundle)
    (fname nm : Str) (c : ChunkFile) (a : AssetFile)
    (hpa : cfg.preloadAll = false)
    (hinit : fname ∈ initialChunks html bundle)
    (hget : bundleGet bundle fname = some (BundleFile.chunk c))
    (hnm : nm ∈ c.imports)
    (hfind : findBundleAsset bundle nm = some a)
    (hext : cfg.extensionsTest a.fileName = true) :
    a.fileName ∈ computeUsedAssets cfg html bundle := by
  unfold computeUsedAssets
  rw [hpa]
  simp only [Bool.false_eq_true, if_false]
  have main : ∀ (l acc : List Str), fname ∈ l → a.fileName ∈ processAll cfg bundle l acc := by
    intro l
    induction l with
    | nil =>
      intro acc h
      exact absurd h (List.not_mem_nil _)
    | cons f rest ih =>
      intro acc h
      rcases List.mem_cons.mp h with rfl | h
      · show a.fileName ∈ processAll cfg bundle rest (processInitialFile cfg bundle acc fname)
        apply mem_processAll_of_mem
        unfold processInitialFile
        rw [hget]
        exact mem_collectImports_intro cfg bundle hfind hext c.imports _ hnm
      · exact ih _ h
  exact main _ [] hinit

/-- C7 witness: a statically imported, resolvable, matching asset is
collected. -/
theorem claim7_imports_collected_witness :
    (S "a.png") ∈ computeUsedAssets defaultConfig htmlMain bundleNoPayload :=
  claim7_imports_collected defaultConfig htmlMain bundleNoPayload
    (S "main.js") (S "a.png") ⟨S "main.js", [], [S "a.png"], []⟩ ⟨S "a.png", none⟩
    rfl (by decide) (by decide) (by decide) (by decide) (by decide)

/-- C7 counterexample: a path listed only in the chunk's dynamic import
list, although it resolves to a matching asset, is *not* collected — the
code reads only `chunk.imports`. -/
theorem claim7_counterexample :
    (S "main.js") ∈ initialChunks htmlMain bundleDynOnly ∧
    bundleGet bundleDynOnly (S "main.js") =
      some (BundleFile.chunk ⟨S "main.js", [], [], [S "font.woff2"]⟩) ∧
    (S "font.woff2") ∈ (⟨S "main.js", [], [], [S "font.woff2"]⟩ : ChunkFile).dynamicImports ∧
    findBundleAsset bundleDynOnly (S "font.woff2") =
      some ⟨S "font.woff2", some (.buf [0, 0, 0])⟩ ∧
    defaultExtensionsTest (S "font.woff2") = true ∧
    computeUsedAssets defaultConfig htmlMain bundleDynOnly = [] := by
  refine ⟨by decide, by decide, by decide, by decide, by decide, by decide⟩

/-! ### Resolution order of findBundleAsset -/

lemma findAssetAux_append_first (n : Str) (a : AssetFile) (k : Str) :
    ∀ (preB postB : Bundle),
      (∀ e ∈ preB, ∀ b : AssetFile, e.2 = BundleFile.asset b →
        n.isSuffixOf b.fileName = false) →
      n.isSuffixOf a.fileName = true →
      findAssetAux (preB ++ (k, BundleFile.asset a) :: postB) n = some a := by
  intro preB
  induction preB with
  | nil =>
    intro postB _ ha
    show findAssetAux ((k, BundleFile.asset a) :: postB) n = some a
    unfold findAssetAux
    rw [ha]
    rfl
  | cons e rest ih =>
    intro postB hpre ha
    obtain ⟨ke, fe⟩ := e
    cases fe with
    | chunk c =>
      show findAssetAux ((ke, BundleFile.chunk c) ::
        (rest ++ (k, BundleFile.asset a) :: postB)) n = some a
      unfold findAssetAux
      exact ih postB (fun e he => hpre e (List.mem_cons_of_mem _ he)) ha
    | asset b =>
      have hb := hpre (ke, BundleFile.asset b) (List.mem_cons_self _ _) b rfl
      show findAssetAux ((ke, BundleFile.asset b) ::
        (rest ++ (k, BundleFile.asset a) :: postB)) n = some a
      unfold findAssetAux
      rw [hb]
      simp only [Bool.false_eq_true, if_false]
      exact ih postB (fun e he => hpre e (List.mem_cons_of_mem _ he)) ha

/-- C8 (amended): `findBundleAsset` returns the *first* asset in bundle
iteration order whose file name ends with the normalized tail; an exact
path match is found only when no earlier entry suffix-matches. -/
theorem claim8_first_suffix_match (preB postB : Bundle) (k name : Str) (a : AssetFile)
    (hpre : ∀ e ∈ preB, ∀ b : AssetFile, e.2 = BundleFile.asset b →
      (normalizeName name).isSuffixOf b.fileName = false)
    (ha : (normalizeName name).isSuffixOf a.fileName = true) :
    findBundleAsset (preB ++ (k, BundleFile.asset a) :: postB) name = some a :=
  findAssetAux_append_first (normalizeName name) a k preB postB hpre ha

/-- C8 witness: with no earlier suffix-matching asset, the matching
asset itself is returned. -/
theorem claim8_first_suffix_match_witness :
    findBundleAsset [(S "main.js", BundleFile.chunk ⟨S "main.js", [], [], []⟩),
      (S "foo.png", BundleFile.asset assetExact)] (S "foo.png") = some assetExact :=
  claim8_first_suffix_match [(S "main.js", BundleFile.chunk ⟨S "main.js", [], [], []⟩)] []
    (S "foo.png") (S "foo.png") assetExact
    (fun e he b hb => by
      rcases List.mem_singleton.mp he with rfl
      exact BundleFile.noConfusion hb)
    (by decide)

/-- C8 counterexample: the bundle holds an asset whose path is exactly
`foo.png`, yet resolution returns the earlier, merely suffix-matching
`assets/foo.png` — exact matches get no preference. -/
theorem claim8_counterexample :
    (S "foo.png", BundleFile.asset assetExact) ∈ bundleTwoFoo ∧
    assetExact.fileName = S "foo.png" ∧
    (findBundleAsset bundleTwoFoo (S "foo.png")).map AssetFile.fileName =
      some (S "assets/foo.png") ∧
    S "assets/foo.png" ≠ S "foo.png" := by
  refine ⟨by decide, by decide, by decide, by decide⟩

end VitePreload
